import Mathlib

/-!
# Verification of the Overheard ranking & voting engine

A shallow embedding of `models.py` from the Overheard application
(quotes, votes, voters), together with proofs about its voting,
ranking, deletion and pagination operations.

Conventions of the embedding:
* The datastore is explicit state: association lists keyed by entity keys
  (`Quote` by numeric id, `Vote` by the pair (parent quote id, user email),
  `Voter` by user email), plus the memcache as a string-keyed table.
* Datastore string comparison (used by the GQL queries on `creation_order`
  and `rank`) is modelled by `charListLe`/`charListLt`, lexicographic
  comparison of the character sequences.
* Python's `"%020d" % n` is modelled by `format020`: minus sign (when
  negative) followed by the decimal digits zero-padded so that the whole
  rendering has at least 20 characters.
* A transaction that raises an uncaught Python exception is modelled by
  returning `none`; the surrounding state is rolled back.
* Ambient request data (current time, admin status of the requester, the
  md5 hex digest function) is an explicit `Env` parameter.
-/

namespace Overheard

/-! ## String comparison (datastore ordering on string properties) -/

/-- Lexicographic `≤` on character lists, comparing code points. -/
def charListLe : List Char → List Char → Bool
  | [], _ => true
  | _ :: _, [] => false
  | c :: cs, d :: ds =>
    if c.toNat < d.toNat then true
    else if d.toNat < c.toNat then false
    else charListLe cs ds

/-- Lexicographic `<` on character lists, comparing code points. -/
def charListLt : List Char → List Char → Bool
  | [], [] => false
  | [], _ :: _ => true
  | _ :: _, [] => false
  | c :: cs, d :: ds =>
    if c.toNat < d.toNat then true
    else if d.toNat < c.toNat then false
    else charListLt cs ds

/-- Datastore string `≤` (as used by `WHERE creation_order <= :1`). -/
def strLeB (s t : String) : Bool := charListLe s.data t.data

/-- Datastore string `<`. -/
def strLtB (s t : String) : Bool := charListLt s.data t.data

/-! ## Decimal rendering: Python `"%020d" % n` -/

/-- Number of decimal digits of `n`, with explicit fuel (structural). -/
def digitsLenCore : Nat → Nat → Nat
  | 0, _ => 1
  | fuel + 1, n => if n < 10 then 1 else digitsLenCore fuel (n / 10) + 1

/-- Number of decimal digits of `n` (1 for 0). -/
def digitsLen (n : Nat) : Nat := digitsLenCore n n

/-- The `w` decimal digits of `n`, most significant first
(the value of `n` truncated to its low `w` digits). -/
def padDigits : Nat → Nat → List Nat
  | 0, _ => []
  | w + 1, n => n / 10 ^ w :: padDigits w (n % 10 ^ w)

/-- Python `"%020d" % n`: the decimal rendering of `n`, zero-padded between
the optional minus sign and the digits so the result has at least 20
characters in total. -/
def format020 (n : Int) : String :=
  if n < 0 then
    "-" ++ String.mk ((padDigits (max 19 (digitsLen n.natAbs)) n.natAbs).map Nat.digitChar)
  else
    String.mk ((padDigits (max 20 (digitsLen n.natAbs)) n.natAbs).map Nat.digitChar)

/-! ## Data model (`models.py`) -/

/-- `PAGE_SIZE = 20`. -/
def PAGE_SIZE : Nat := 20

/-- `DAY_SCALE = 4`. -/
def DAY_SCALE : Int := 4

/-- A `users.User`; identified by its email address. -/
structure User where
  email : String
deriving DecidableEq

/-- The `Quote` model: text, optional source URI, derived rank string
(unset until first computed), creation day bucket, creation-order index,
vote sum and creator. -/
structure Quote where
  quote : String
  uri : Option String := none
  rank : Option String := none
  created : Int := 0
  creation_order : String := " "
  votesum : Int := 0
  creator : Option User := none
deriving DecidableEq

/-- The `Voter` model: per-user quote-submission counter and
engagement flags. -/
structure Voter where
  count : Int := 0
  hasVoted : Bool := false
  hasAddedQuote : Bool := false
deriving DecidableEq

instance : Inhabited Voter := ⟨{}⟩

/-- The datastore plus memcache.  `Quote` entities are keyed by their
numeric id (`nextId` models the store's id allocator); `Vote` entities by
(parent quote id, voter email) with integer value; `Voter` entities by
email; memcache entries by string key. -/
structure State where
  quotes : List (Nat × Quote) := []
  votes : List ((Nat × String) × Int) := []
  voters : List (String × Voter) := []
  memcache : List (String × Int) := []
  nextId : Nat := 1
deriving DecidableEq

/-- Ambient request environment: current timestamp (ISO, truncated to
seconds), days since the 2008-10-01 epoch, the md5 hex digest function used
by `_unique_user`, and whether the current user is a site administrator. -/
structure Env where
  nowIso : String
  days : Int
  md5hex : String → String
  isAdmin : Bool

/-! ## Association-list primitives (datastore get/put by key) -/

/-- Look up the value stored under key `k`. -/
def lookupA {κ α : Type} [DecidableEq κ] (l : List (κ × α)) (k : κ) : Option α :=
  (l.find? (fun p => decide (p.1 = k))).map Prod.snd

/-- Store `v` under key `k`, replacing any previous entry. -/
def insertA {κ α : Type} [DecidableEq κ] (l : List (κ × α)) (k : κ) (v : α) :
    List (κ × α) :=
  (k, v) :: l.filter (fun p => decide (p.1 ≠ k))

/-- Remove the entry under key `k`. -/
def removeA {κ α : Type} [DecidableEq κ] (l : List (κ × α)) (k : κ) : List (κ × α) :=
  l.filter (fun p => decide (p.1 ≠ k))

/-! ## Voter helpers (`_get_or_create_voter`, `_set_progress_hasVoted`,
`_unique_user`) -/

/-- `_get_or_create_voter`: the stored `Voter` for the user, or a fresh
default one (not yet persisted). -/
def get_or_create_voter (s : State) (user : User) : Voter :=
  (lookupA s.voters user.email).getD {}

/-- `_set_progress_hasVoted`: transactionally set `hasVoted := true`
(a no-op when already set). -/
def set_progress_hasVoted (s : State) (user : User) : State :=
  let voter := get_or_create_voter s user
  if voter.hasVoted then s
  else { s with voters := insertA s.voters user.email { voter with hasVoted := true } }

/-- `_unique_user`: transactionally bump the user's counter, mark
`hasAddedQuote`, and hash `email|count`. Returns (token, new state). -/
def unique_user (env : Env) (s : State) (user : User) : String × State :=
  let voter := get_or_create_voter s user
  let voter' := { voter with count := voter.count + 1, hasAddedQuote := true }
  let s' := { s with voters := insertA s.voters user.email voter' }
  (env.md5hex (user.email ++ "|" ++ toString voter'.count), s')

/-! ## Quote operations -/

/-- `add_quote`: persist a new quote.  Mirrors the source: `rank` is left
unset, `votesum` defaults to 0, `created` is the epoch day offset unless a
(Python-truthy, i.e. nonzero) `_created` override is supplied, and
`creation_order` is the truncated ISO timestamp joined with the unique
token.  The `db.Error` branch (store failure) is not modelled: the model
store always accepts the write. -/
def add_quote (env : Env) (s : State) (text : String) (user : User)
    (uri : Option String := none) (created' : Option Int := none) :
    Option Nat × State :=
  let (uniq, s1) := unique_user env s user
  let created : Int :=
    match created' with
    | some c => if c ≠ 0 then c else env.days
    | none => env.days
  let q : Quote :=
    { quote := text
      created := created
      creator := some user
      creation_order := env.nowIso ++ "|" ++ uniq
      uri := uri }
  let id := s1.nextId
  (some id, { s1 with quotes := insertA s1.quotes id q, nextId := id + 1 })

/-- `del_quote`: delete a quote if the requester is its creator or an
administrator; otherwise (and when the id is unknown) do nothing. -/
def del_quote (env : Env) (s : State) (quote_id : Nat) (user : User) : State :=
  match lookupA s.quotes quote_id with
  | none => s
  | some q =>
    if env.isAdmin ∨ q.creator = some user then
      { s with quotes := removeA s.quotes quote_id }
    else s

/-- `get_quote`: retrieve a single quote by id. -/
def get_quote (s : State) (quote_id : Nat) : Option Quote :=
  lookupA s.quotes quote_id

/-! ## Pagination — recency view (`get_quotes_newest`) -/

/-- Query order `ORDER BY creation_order DESC`. -/
def newestRel (a b : Nat × Quote) : Prop :=
  strLeB b.2.creation_order a.2.creation_order = true

instance : DecidableRel newestRel :=
  fun a b => inferInstanceAs (Decidable (_ = true))

/-- Strict descending order on `creation_order` (derived from `newestRel`
on quotes with distinct creation orders). -/
def newestStrict (a b : Nat × Quote) : Prop :=
  strLtB b.2.creation_order a.2.creation_order = true

/-- The quote store sorted by `creation_order` descending. -/
def sortNewest (l : List (Nat × Quote)) : List (Nat × Quote) :=
  List.insertionSort newestRel l

/-- The candidate rows of the recency query: without an offset,
`ORDER BY creation_order DESC` over the whole store; with one,
`WHERE creation_order <= :1 ORDER BY creation_order DESC`. -/
def newestCand (s : State) : Option String → List (Nat × Quote)
  | none => sortNewest s.quotes
  | some c => sortNewest (s.quotes.filter (fun p => strLeB p.2.creation_order c))

/-- `get_quotes_newest`: one page of the recency view.  Fetch the first
`PAGE_SIZE + 1` rows of the query; when the extra row exists, report its
`creation_order` as the next-page offset and trim the page. -/
def get_quotes_newest (s : State) (offset : Option String) :
    List (Nat × Quote) × Option String :=
  let qs := (newestCand s offset).take (PAGE_SIZE + 1)
  if PAGE_SIZE < qs.length then
    (qs.take PAGE_SIZE, (qs.getLast?).map (fun p => p.2.creation_order))
  else
    (qs, none)

/-! ## Voting (`set_vote`) -/

/-- The rank string computed inside `set_vote`:
`"%020d|%s" % (created * DAY_SCALE + votesum, creation_order)`. -/
def rankString (created votesum : Int) (creation_order : String) : String :=
  format020 (created * DAY_SCALE + votesum) ++ "|" ++ creation_order

/-- `set_vote`: record `user` casting `newvote` on quote `quote_id`.
`none` models an uncaught exception from the transaction (which rolls the
transaction back).  With no signed-in user the call returns at once.
Otherwise the transaction loads the quote and the user's vote on it (a
fresh vote has value 0); an unchanged value is a no-op; a changed value
updates the vote, the quote's `votesum` and its `rank`, and refreshes the
memcache entry.  When the quote id is unknown, the vote lookup (under a
`None` parent) finds nothing, so a fresh vote with value 0 is used: a cast
of 0 returns as a no-op, while any other value crashes the transaction on
the `quote.votesum` attribute access.  After the transaction,
`_set_progress_hasVoted` marks the voter. -/
def set_vote (s : State) (quote_id : Nat) (user : Option User) (newvote : Int) :
    Option State :=
  match user with
  | none => some s
  | some u =>
    let txn : Option State :=
      match lookupA s.quotes quote_id with
      | none => if newvote = 0 then some s else none
      | some quote =>
        let prior := (lookupA s.votes (quote_id, u.email)).getD 0
        if prior = newvote then some s
        else
          let votesum := quote.votesum - prior + newvote
          let quote' := { quote with
            votesum := votesum
            rank := some (rankString quote.created votesum quote.creation_order) }
          some { s with
            quotes := insertA s.quotes quote_id quote'
            votes := insertA s.votes (quote_id, u.email) newvote
            memcache :=
              insertA s.memcache ("vote|" ++ u.email ++ "|" ++ toString quote_id) newvote }
    match txn with
    | none => none
    | some s' => some (set_progress_hasVoted s' u)

/-! ## Pagination — rank view (`get_quotes`) -/

/-- Datastore `≤` on the optional `rank` property: entities without the
property sort below every string value. -/
def rankLeB : Option String → Option String → Bool
  | none, _ => true
  | some _, none => false
  | some x, some y => strLeB x y

/-- Query order `ORDER BY rank DESC`. -/
def rankRel (a b : Nat × Quote) : Prop :=
  rankLeB b.2.rank a.2.rank = true

instance : DecidableRel rankRel :=
  fun a b => inferInstanceAs (Decidable (_ = true))

/-- `get_quotes`: one page of the rank view, offset-based.  The two
`assert` statements (`page >= 0`, `page < 20`) are modelled by returning
`none` — the query is never issued for an out-of-range page. -/
def get_quotes (s : State) (page : Int := 0) :
    Option (List (Nat × Quote) × Option (Nat × Quote)) :=
  if 0 ≤ page ∧ page < 20 then
    let qs :=
      ((List.insertionSort rankRel s.quotes).drop (page.toNat * PAGE_SIZE)).take
        (PAGE_SIZE + 1)
    if PAGE_SIZE < qs.length then
      some (qs.take PAGE_SIZE, if page < 19 then qs.getLast? else none)
    else
      some (qs, none)
  else
    none

/-! ## Derived notions used by the statements -/

/-- The stored `votesum` of quote `quote_id` (0 when absent). -/
def votesumOf (s : State) (quote_id : Nat) : Int :=
  ((lookupA s.quotes quote_id).map Quote.votesum).getD 0

/-- The effective stored vote of `u` on quote `quote_id`
(0 when no vote record exists). -/
def storedVote (s : State) (quote_id : Nat) (u : User) : Int :=
  (lookupA s.votes (quote_id, u.email)).getD 0

/-- Run a sequence of `set_vote` calls on one quote. -/
def applyVotes (s : State) (quote_id : Nat) : List (User × Int) → Option State
  | [] => some s
  | (u, v) :: rest =>
    match set_vote s quote_id (some u) v with
    | none => none
    | some s' => applyVotes s' quote_id rest

/-- The distinct users appearing in a vote sequence. -/
def usersOf (seq : List (User × Int)) : Finset User :=
  (seq.map Prod.fst).toFinset

/-- The last value `u` casts in the sequence (0 when `u` never appears). -/
def latestVote (seq : List (User × Int)) (u : User) : Int :=
  (((seq.filter (fun p => decide (p.1 = u))).map Prod.snd).getLast?).getD 0

/-- Page repeatedly through the recency view, starting from `offset`,
following the returned next-page offsets.  `none` when `fuel` runs out
before the view reports a final page. -/
def pagesNewest (s : State) (offset : Option String) : Nat → Option (List (List (Nat × Quote)))
  | 0 => none
  | fuel + 1 =>
    match get_quotes_newest s offset with
    | (page, none) => some [page]
    | (page, some c) => (pagesNewest s (some c) fuel).map (page :: ·)

/-! ## Concrete fixtures (used to instantiate the theorems) -/

/-- A concrete user. -/
def uTest : User := ⟨"fred@example.com"⟩

/-- A second concrete user. -/
def uTest2 : User := ⟨"barney@example.com"⟩

/-- A concrete request environment (the digest function is immaterial for
the properties instantiated with it). -/
def envTest : Env :=
  { nowIso := "2008-10-02T00:00:00", days := 1, md5hex := fun t => t, isAdmin := false }

/-- A concrete stored quote. -/
def qTest : Quote :=
  { quote := "This is a test."
    created := 1
    creation_order := "2008-10-02T00:00:00|a"
    creator := some uTest }

/-- A one-quote store. -/
def sTest : State := { quotes := [(1, qTest)] }

/-- A 25-quote store with pairwise distinct creation orders. -/
def sPages : State :=
  { quotes := (List.range 25).map
      (fun i => (i, { quote := "x", creation_order := toString (100 - i) })) }

/-- The state after `uTest` casts 1 on the test quote. -/
def sVoted : State := (set_vote sTest 1 (some uTest) 1).getD {}

/-- The state after `uTest` casts 1 on the test quote twice. -/
def sVoted2 : State := (set_vote sVoted 1 (some uTest) 1).getD {}

/-- The stored quote after `uTest` casts 1 on it. -/
def qVoted : Quote := (lookupA sVoted.quotes 1).getD qTest

/-! ## Helper lemmas: association lists -/

theorem find?_filter_ne {κ α : Type} [DecidableEq κ] (l : List (κ × α)) (k k' : κ)
    (h : k' ≠ k) :
    (l.filter (fun p => decide (p.1 ≠ k))).find? (fun p => decide (p.1 = k')) =
      l.find? (fun p => decide (p.1 = k')) := by
  induction l with
  | nil => rfl
  | cons p l ih =>
    rw [List.filter_cons]
    by_cases hp : p.1 = k
    · have h2 : p.1 ≠ k' := by rw [hp]; exact fun e => h e.symm
      rw [if_neg (by simp [hp]), List.find?_cons_of_neg _ (by simp [h2])]
      exact ih
    · rw [if_pos (by simp [hp])]
      by_cases hk' : p.1 = k'
      · rw [List.find?_cons_of_pos _ (by simp [hk']),
          List.find?_cons_of_pos _ (by simp [hk'])]
      · rw [List.find?_cons_of_neg _ (by simp [hk']),
          List.find?_cons_of_neg _ (by simp [hk'])]
        exact ih

theorem lookupA_insertA {κ α : Type} [DecidableEq κ] (l : List (κ × α)) (k k' : κ)
    (v : α) :
    lookupA (insertA l k v) k' = if k' = k then some v else lookupA l k' := by
  by_cases h : k' = k
  · subst h
    rw [if_pos rfl]
    unfold lookupA insertA
    rw [List.find?_cons_of_pos _ (by simp)]
    rfl
  · rw [if_neg h]
    have h' : k ≠ k' := fun e => h e.symm
    unfold lookupA insertA
    rw [List.find?_cons_of_neg _ (by simp [h']), find?_filter_ne l k k' h]

/-! ## Helper lemmas: `_set_progress_hasVoted` touches only the voters -/

theorem spv_quotes (s : State) (u : User) :
    (set_progress_hasVoted s u).quotes = s.quotes := by
  by_cases h : (get_or_create_voter s u).hasVoted <;> simp [set_progress_hasVoted, h]

theorem spv_votes (s : State) (u : User) :
    (set_progress_hasVoted s u).votes = s.votes := by
  by_cases h : (get_or_create_voter s u).hasVoted <;> simp [set_progress_hasVoted, h]

theorem spv_memcache (s : State) (u : User) :
    (set_progress_hasVoted s u).memcache = s.memcache := by
  by_cases h : (get_or_create_voter s u).hasVoted <;> simp [set_progress_hasVoted, h]

/-! ## Helper lemmas: one `set_vote` step on a present quote -/

theorem set_vote_isSome (s : State) (qid : Nat) (u : User) (v : Int) (q : Quote)
    (hq : lookupA s.quotes qid = some q) :
    (set_vote s qid (some u) v).isSome = true := by
  unfold set_vote
  rw [hq]
  by_cases hp : (lookupA s.votes (qid, u.email)).getD 0 = v <;> simp [hp]

theorem set_vote_step (s : State) (qid : Nat) (u : User) (v : Int) (q : Quote)
    (s' : State) (hq : lookupA s.quotes qid = some q)
    (h : set_vote s qid (some u) v = some s') :
    votesumOf s' qid = votesumOf s qid + (v - storedVote s qid u) ∧
    (∀ w : User, storedVote s' qid w =
      if w.email = u.email then v else storedVote s qid w) ∧
    (lookupA s'.quotes qid).isSome = true := by
  unfold set_vote at h
  rw [hq] at h
  by_cases hp : (lookupA s.votes (qid, u.email)).getD 0 = v
  · simp only [hp, if_true, Option.some.injEq] at h
    subst h
    refine ⟨?_, ?_, ?_⟩
    · have hsv : storedVote s qid u = v := hp
      rw [hsv]
      simp [votesumOf, spv_quotes]
    · intro w
      by_cases hw : w.email = u.email
      · have hsv : storedVote s qid u = v := hp
        simp only [storedVote, spv_votes, hw, if_pos]
        exact hsv
      · simp [storedVote, spv_votes, hw]
    · simp [spv_quotes, hq]
  · simp only [hp, if_false, Option.some.injEq] at h
    subst h
    refine ⟨?_, ?_, ?_⟩
    · simp [votesumOf, storedVote, spv_quotes, lookupA_insertA, hq]
      omega
    · intro w
      by_cases hw : w.email = u.email
      · simp [storedVote, spv_votes, lookupA_insertA, hw]
      · simp [storedVote, spv_votes, lookupA_insertA, hw, Prod.ext_iff]
    · simp [spv_quotes, lookupA_insertA]

/-! ## Claims -/

/-- Claim C10: `set_vote` with no signed-in user returns immediately and
leaves the entire state (quote, vote, voter stores and memcache)
unchanged. -/
theorem set_vote_no_user (s : State) (quote_id : Nat) (newvote : Int) :
    set_vote s quote_id none newvote = some s := rfl

/-- Claim C9: `get_quotes` has precondition `0 ≤ page < 20`: inside the
range the assertions never fire and the query branch returns a result;
outside it the call is rejected before any query is issued, regardless of
the store's contents. -/
theorem get_quotes_page_contract (s : State) (page : Int) :
    ((0 ≤ page ∧ page < 20) → (get_quotes s page).isSome = true) ∧
    (¬(0 ≤ page ∧ page < 20) → get_quotes s page = none) := by
  constructor
  · intro h
    simp only [get_quotes, if_pos h]
    split_ifs <;> rfl
  · intro h
    unfold get_quotes
    rw [if_neg h]

/-- Witness for C9 at a concrete store and concrete pages 5 and 20. -/
theorem get_quotes_page_contract_witness :
    (get_quotes sTest 5).isSome = true ∧ get_quotes sTest 20 = none :=
  ⟨(get_quotes_page_contract sTest 5).1 (by decide),
   (get_quotes_page_contract sTest 20).2 (by decide)⟩

/-- Claim C8: `del_quote` is a silent no-op (the whole state is unchanged,
so the quote, its `votesum` and its `rank` survive) both when the
requester is neither the creator nor an administrator and when the quote
id does not exist. -/
theorem del_quote_unauthorized_noop (env : Env) (s : State) (quote_id : Nat)
    (user : User) :
    (∀ q, lookupA s.quotes quote_id = some q → env.isAdmin = false →
      q.creator ≠ some user → del_quote env s quote_id user = s) ∧
    (lookupA s.quotes quote_id = none → del_quote env s quote_id user = s) := by
  constructor
  · intro q hq hadmin hcreator
    unfold del_quote
    rw [hq]
    simp [hadmin, hcreator]
  · intro h
    unfold del_quote
    rw [h]

/-- Witness for C8: a stranger's deletion attempt on the test store, and a
deletion of an absent id, both leave the store intact. -/
theorem del_quote_unauthorized_noop_witness :
    del_quote envTest sTest 1 uTest2 = sTest ∧ del_quote envTest sTest 2 uTest2 = sTest :=
  ⟨(del_quote_unauthorized_noop envTest sTest 1 uTest2).1 qTest (by decide) (by decide)
      (by decide),
   (del_quote_unauthorized_noop envTest sTest 2 uTest2).2 (by decide)⟩

/-- Claim C3: `set_vote` is idempotent on resubmission.  When the user's
effective stored vote already equals the new value, the call succeeds and
leaves the quote store (hence `votesum` and `rank`), the vote store and
the memcache untouched; and casting the same value twice in a row leaves
`votesum` unchanged between the two calls. -/
theorem set_vote_idempotent :
    (∀ s qid u v q, lookupA s.quotes qid = some q → storedVote s qid u = v →
      ∃ s', set_vote s qid (some u) v = some s' ∧ s'.quotes = s.quotes ∧
        s'.votes = s.votes ∧ s'.memcache = s.memcache) ∧
    (∀ s qid u v q s1 s2, lookupA s.quotes qid = some q →
      set_vote s qid (some u) v = some s1 → set_vote s1 qid (some u) v = some s2 →
      votesumOf s2 qid = votesumOf s1 qid) := by
  constructor
  · intro s qid u v q hq hp
    refine ⟨set_progress_hasVoted s u, ?_, spv_quotes s u, spv_votes s u,
      spv_memcache s u⟩
    unfold set_vote
    rw [hq]
    simp only [storedVote] at hp
    simp [hp]
  · intro s qid u v q s1 s2 hq h1 h2
    obtain ⟨hsum1, hst1, hpres1⟩ := set_vote_step s qid u v q s1 hq h1
    obtain ⟨q1, hq1⟩ := Option.isSome_iff_exists.mp hpres1
    obtain ⟨hsum2, -, -⟩ := set_vote_step s1 qid u v q1 s2 hq1 h2
    have hst : storedVote s1 qid u = v := by rw [hst1 u]; simp
    rw [hsum2, hst]
    ring

/-- Witness for C3: resubmitting the prior value 0 on the test store, and
casting 1 twice in a row. -/
theorem set_vote_idempotent_witness :
    (∃ s', set_vote sTest 1 (some uTest) 0 = some s' ∧ s'.quotes = sTest.quotes ∧
      s'.votes = sTest.votes ∧ s'.memcache = sTest.memcache) ∧
    votesumOf sVoted2 1 = votesumOf sVoted 1 :=
  ⟨set_vote_idempotent.1 sTest 1 uTest 0 qTest (by decide) (by decide),
   set_vote_idempotent.2 sTest 1 uTest 1 qTest sVoted sVoted2 (by decide) (by decide)
     (by decide)⟩

/-- Claim C2: after a committed `set_vote` transaction that mutates state
(the new value differs from the stored prior), the stored quote's rank is
the zero-padded 20-character decimal rendering of
`created * DAY_SCALE + votesum` for the `created` and `votesum` stored by
the same transaction, joined with `|` and the quote's `creation_order`. -/
theorem set_vote_rank_consistent (s : State) (qid : Nat) (u : User) (v : Int)
    (q : Quote) (s' : State) (q' : Quote)
    (hq : lookupA s.quotes qid = some q) (hne : storedVote s qid u ≠ v)
    (hrun : set_vote s qid (some u) v = some s')
    (hq' : lookupA s'.quotes qid = some q') :
    q'.rank =
      some (format020 (q'.created * DAY_SCALE + q'.votesum) ++ "|" ++ q'.creation_order) := by
  unfold set_vote at hrun
  rw [hq] at hrun
  simp only [storedVote] at hne
  simp only [hne, if_false, Option.some.injEq] at hrun
  subst hrun
  rw [spv_quotes, lookupA_insertA, if_pos rfl] at hq'
  cases hq'
  rfl

/-- Witness for C2: `uTest` casts 1 on the test quote; the stored rank is
consistent with the stored day and vote sum. -/
theorem set_vote_rank_consistent_witness :
    qVoted.rank =
      some (format020 (qVoted.created * DAY_SCALE + qVoted.votesum) ++ "|" ++
        qVoted.creation_order) :=
  set_vote_rank_consistent sTest 1 uTest 1 qTest sVoted qVoted (by decide) (by decide)
    (by decide) (by decide)

/-- Counterexample for C5: on a store with no quote of id 1, `set_vote`
with value 1 raises (modelled `none`) instead of returning `NotFound`, and
`set_vote` with value 0 returns successfully yet does not leave all stores
unchanged (the voter's `hasVoted` flag is written). -/
theorem set_vote_missing_quote_cex :
    set_vote ({} : State) 1 (some uTest) 1 = none ∧
    (set_vote ({} : State) 1 (some uTest) 0).isSome = true ∧
    set_vote ({} : State) 1 (some uTest) 0 ≠ some ({} : State) := by
  refine ⟨by decide, by decide, by decide⟩

/-- Claim C5 (amended): when no live quote has the given id, `set_vote` by
a signed-in user crashes the transaction (an uncaught exception, modelled
`none`) for any nonzero value, leaving every store unchanged; for value 0
it returns successfully, touching no store other than the voter record
written by `_set_progress_hasVoted` after the transaction. -/
theorem set_vote_missing_quote (s : State) (qid : Nat) (u : User) (v : Int)
    (h : lookupA s.quotes qid = none) :
    (v ≠ 0 → set_vote s qid (some u) v = none) ∧
    (v = 0 → set_vote s qid (some u) v = some (set_progress_hasVoted s u)) := by
  constructor
  · intro hv
    unfold set_vote
    rw [h]
    simp [hv]
  · intro hv
    subst hv
    unfold set_vote
    rw [h]
    simp

/-- Witness for C5 (amended) at the empty store. -/
theorem set_vote_missing_quote_witness :
    set_vote ({} : State) 1 (some uTest) (-1) = none ∧
    set_vote ({} : State) 1 (some uTest) 0 =
      some (set_progress_hasVoted ({} : State) uTest) :=
  ⟨(set_vote_missing_quote {} 1 uTest (-1) (by decide)).1 (by decide),
   (set_vote_missing_quote {} 1 uTest 0 (by decide)).2 rfl⟩

/-- Counterexample for C7: the quote persisted by `add_quote` carries no
rank key at all (`rank = none`), in particular not the rank string computed
from `created` and `votesum = 0`. -/
theorem add_quote_rank_unset_cex :
    ((lookupA (add_quote envTest {} "This is a test." uTest none none).2.quotes 1).map
      Quote.rank) = some none ∧
    (none : Option String) ≠
      some (rankString envTest.days 0 "2008-10-02T00:00:00|fred@example.com|1") :=
  ⟨by decide, by decide⟩

/-- Claim C7 (amended): a successful `add_quote` persists a new quote whose
`votesum` is 0 and whose rank key is unset (`rank = none`); no rank is
computed until the first vote is cast on the quote. -/
theorem add_quote_fresh (env : Env) (s : State) (text : String) (user : User)
    (uri : Option String) (created' : Option Int) (htext : text ≠ "") :
    (add_quote env s text user uri created').1 = some s.nextId ∧
    ∃ q', lookupA (add_quote env s text user uri created').2.quotes s.nextId = some q' ∧
      q'.votesum = 0 ∧ q'.rank = none ∧ q'.quote = text := by
  refine ⟨rfl, ?_⟩
  simp only [add_quote, unique_user]
  rw [lookupA_insertA, if_pos rfl]
  exact ⟨_, rfl, rfl, rfl, rfl⟩

/-- Witness for C7 (amended) at the empty store. -/
theorem add_quote_fresh_witness :
    (add_quote envTest {} "This is a test." uTest none none).1 = some ({} : State).nextId ∧
    ∃ q', lookupA (add_quote envTest {} "This is a test." uTest none none).2.quotes
        ({} : State).nextId = some q' ∧
      q'.votesum = 0 ∧ q'.rank = none ∧ q'.quote = "This is a test." :=
  add_quote_fresh envTest {} "This is a test." uTest none none (by decide)

/-! ## Helper lemmas: the decimal encoding is monotone on `[0, 10^20)` -/

theorem digitChar_toNat_lt :
    ∀ d1 < 10, ∀ d2 < 10, d1 < d2 →
      (Nat.digitChar d1).toNat < (Nat.digitChar d2).toNat := by
  decide

theorem digitChar_toNat_not_lt_self :
    ∀ d < 10, ¬((Nat.digitChar d).toNat < (Nat.digitChar d).toNat) := by
  decide

theorem digitsLenCore_le (fuel : Nat) :
    ∀ n w : Nat, 1 ≤ w → n < 10 ^ w → digitsLenCore fuel n ≤ w := by
  induction fuel with
  | zero => intro n w hw _; exact hw
  | succ fuel ih =>
    intro n w hw hn
    unfold digitsLenCore
    by_cases h10 : n < 10
    · simpa [h10] using hw
    · rw [if_neg h10]
      have hw2 : 2 ≤ w := by
        by_contra hc
        interval_cases w
        omega
      have hdiv : n / 10 < 10 ^ (w - 1) := by
        rw [Nat.div_lt_iff_lt_mul (by norm_num)]
        calc n < 10 ^ w := hn
        _ = 10 ^ (w - 1) * 10 := by
          rw [← pow_succ]
          congr 1
          omega
      have := ih (n / 10) (w - 1) (by omega) hdiv
      omega

theorem digitsLen_le (n w : Nat) (hw : 1 ≤ w) (hn : n < 10 ^ w) : digitsLen n ≤ w :=
  digitsLenCore_le n n w hw hn

theorem charListLt_padDigits :
    ∀ w a b : Nat, a < b → b < 10 ^ w →
      charListLt ((padDigits w a).map Nat.digitChar) ((padDigits w b).map Nat.digitChar) =
        true := by
  intro w
  induction w with
  | zero =>
    intro a b hab hb
    simp at hb
    omega
  | succ w ih =>
    intro a b hab hb
    have hpow : 0 < 10 ^ w := Nat.pos_pow_of_pos w (by norm_num)
    have hb10 : b / 10 ^ w < 10 := by
      rw [Nat.div_lt_iff_lt_mul hpow, ← pow_succ']
      exact hb
    have ha10 : a / 10 ^ w < 10 := by
      rw [Nat.div_lt_iff_lt_mul hpow, ← pow_succ']
      exact lt_trans hab hb
    have hdivle : a / 10 ^ w ≤ b / 10 ^ w := Nat.div_le_div_right (le_of_lt hab)
    unfold padDigits
    simp only [List.map_cons]
    unfold charListLt
    by_cases hd : a / 10 ^ w < b / 10 ^ w
    · rw [if_pos (digitChar_toNat_lt _ ha10 _ hb10 hd)]
    · have heq : a / 10 ^ w = b / 10 ^ w := le_antisymm hdivle (not_lt.mp hd)
      rw [heq, if_neg (digitChar_toNat_not_lt_self _ hb10),
        if_neg (digitChar_toNat_not_lt_self _ hb10)]
      have ha' := Nat.div_add_mod a (10 ^ w)
      have hb' := Nat.div_add_mod b (10 ^ w)
      rw [heq] at ha'
      exact ih (a % 10 ^ w) (b % 10 ^ w) (by omega) (Nat.mod_lt b hpow)

/-- Counterexample for C4: the encoding is not monotone over all integer
scores.  Among negative scores the lexicographic order is reversed
(`-2 < -1` but its rendering compares above), and at the 20-digit boundary
`10^20 - 1 < 10^20` yet the renderings also compare the wrong way. -/
theorem format020_monotone_cex :
    (-2 : Int) < -1 ∧
    strLtB (format020 (-2)) (format020 (-1)) = false ∧
    strLtB (format020 (-1)) (format020 (-2)) = true ∧
    (99999999999999999999 : Int) < 100000000000000000000 ∧
    strLtB (format020 99999999999999999999) (format020 100000000000000000000) = false := by
  refine ⟨by decide, by decide, by decide, by decide, by decide⟩

/-- Claim C4 (amended): the rank-key encoding is strictly monotone on
nonnegative scores below `10^20`: for scores `0 ≤ s1 < s2 < 10^20` the
encoded fixed-width decimal of `s1` compares lexicographically below that
of `s2`, so lexicographic order of the encoded prefixes agrees with
numeric order on that range (which excludes the negative and the
21-digit scores, where the encoding reverses). -/
theorem format020_monotone (s1 s2 : Int) (h0 : 0 ≤ s1) (h12 : s1 < s2)
    (h2 : s2 < 100000000000000000000) :
    strLtB (format020 s1) (format020 s2) = true := by
  unfold format020
  rw [if_neg (not_lt.mpr h0), if_neg (not_lt.mpr (le_trans h0 (le_of_lt h12)))]
  have hb1 : s1.natAbs < 10 ^ 20 := by
    have : (10 : Int) ^ 20 = 100000000000000000000 := by norm_num
    omega
  have hb2 : s2.natAbs < 10 ^ 20 := by
    have : (10 : Int) ^ 20 = 100000000000000000000 := by norm_num
    omega
  have e1 : max 20 (digitsLen s1.natAbs) = 20 :=
    Nat.max_eq_left (digitsLen_le _ 20 (by norm_num) hb1)
  have e2 : max 20 (digitsLen s2.natAbs) = 20 :=
    Nat.max_eq_left (digitsLen_le _ 20 (by norm_num) hb2)
  rw [e1, e2]
  exact charListLt_padDigits 20 s1.natAbs s2.natAbs (by omega) hb2

/-- Witness for C4 (amended) at scores 9 and 11. -/
theorem format020_monotone_witness : strLtB (format020 9) (format020 11) = true :=
  format020_monotone 9 11 (by decide) (by decide) (by decide)

/-! ## Helper lemmas: vote sums over a sequence of casts -/

theorem User_eq_iff (w u : User) : w = u ↔ w.email = u.email := by
  cases w; cases u; simp

theorem usersOf_cons (p : User × Int) (rest : List (User × Int)) :
    usersOf (p :: rest) = insert p.1 (usersOf rest) := by
  simp [usersOf]

theorem latest_cons_ne (u0 : User) (v : Int) (rest : List (User × Int)) (u : User)
    (h : u ≠ u0) :
    latestVote ((u0, v) :: rest) u = latestVote rest u := by
  unfold latestVote
  rw [List.filter_cons, if_neg (by simp [Ne.symm h])]

theorem filter_user_eq_nil (u0 : User) (rest : List (User × Int))
    (h : u0 ∉ usersOf rest) :
    rest.filter (fun p => decide (p.1 = u0)) = [] := by
  rw [List.filter_eq_nil_iff]
  intro p hp
  simp only [decide_eq_true_eq]
  intro e
  exact h (by simp [usersOf, List.mem_toFinset]; exact ⟨p.2, by rw [← e]; exact (by simpa using hp)⟩)

theorem latest_cons_self_not_mem (u0 : User) (v : Int) (rest : List (User × Int))
    (h : u0 ∉ usersOf rest) :
    latestVote ((u0, v) :: rest) u0 = v := by
  unfold latestVote
  rw [List.filter_cons, if_pos (by simp), filter_user_eq_nil u0 rest h]
  rfl

theorem latest_cons_self_mem (u0 : User) (v : Int) (rest : List (User × Int))
    (h : u0 ∈ usersOf rest) :
    latestVote ((u0, v) :: rest) u0 = latestVote rest u0 := by
  unfold latestVote
  rw [List.filter_cons, if_pos (by simp)]
  obtain ⟨p, hp, hpe⟩ : ∃ p ∈ rest, p.1 = u0 := by
    simpa [usersOf, List.mem_toFinset, eq_comm] using h
  have hne : rest.filter (fun p => decide (p.1 = u0)) ≠ [] :=
    List.ne_nil_of_mem (List.mem_filter.mpr ⟨hp, by simp [hpe]⟩)
  cases hfe : rest.filter (fun p => decide (p.1 = u0)) with
  | nil => exact absurd hfe hne
  | cons b t => simp [List.getLast?_cons_cons]

theorem vote_sum_telescope (u0 : User) (v : Int) (rest : List (User × Int))
    (st st1 : User → Int)
    (hst1 : ∀ w, st1 w = if w.email = u0.email then v else st w) :
    (v - st u0) + ∑ u in usersOf rest, (latestVote rest u - st1 u) =
      ∑ u in usersOf ((u0, v) :: rest), (latestVote ((u0, v) :: rest) u - st u) := by
  have hcongr : ∀ u ∈ (usersOf rest).erase u0,
      latestVote rest u - st1 u = latestVote ((u0, v) :: rest) u - st u := by
    intro u hu
    have hne : u ≠ u0 := Finset.ne_of_mem_erase hu
    rw [latest_cons_ne u0 v rest u hne, hst1 u,
      if_neg (fun e => hne ((User_eq_iff u u0).mpr e))]
  by_cases hmem : u0 ∈ usersOf rest
  · rw [usersOf_cons, Finset.insert_eq_self.mpr hmem]
    rw [← Finset.add_sum_erase _ (fun u => latestVote rest u - st1 u) hmem,
      ← Finset.add_sum_erase _ (fun u => latestVote ((u0, v) :: rest) u - st u) hmem,
      Finset.sum_congr rfl hcongr]
    have h1 : st1 u0 = v := by rw [hst1 u0]; simp
    have h2 : latestVote ((u0, v) :: rest) u0 = latestVote rest u0 :=
      latest_cons_self_mem u0 v rest hmem
    rw [h1, h2]
    ring
  · rw [usersOf_cons, Finset.sum_insert hmem,
      latest_cons_self_not_mem u0 v rest hmem]
    have : ∑ u in usersOf rest, (latestVote rest u - st1 u) =
        ∑ u in usersOf rest, (latestVote ((u0, v) :: rest) u - st u) := by
      refine Finset.sum_congr rfl ?_
      intro u hu
      exact hcongr u (Finset.mem_erase.mpr ⟨fun e => hmem (e ▸ hu), hu⟩)
    rw [this]

theorem applyVotes_votesum (seq : List (User × Int)) :
    ∀ (s : State) (qid : Nat) (s' : State),
      (lookupA s.quotes qid).isSome = true →
      applyVotes s qid seq = some s' →
      votesumOf s' qid = votesumOf s qid +
        ∑ u in usersOf seq, (latestVote seq u - storedVote s qid u) := by
  induction seq with
  | nil =>
    intro s qid s' _ h
    simp only [applyVotes, Option.some.injEq] at h
    subst h
    simp [usersOf]
  | cons p rest ih =>
    intro s qid s' hq h
    obtain ⟨u0, v⟩ := p
    unfold applyVotes at h
    cases hrun : set_vote s qid (some u0) v with
    | none => rw [hrun] at h; cases h
    | some s1 =>
      rw [hrun] at h
      obtain ⟨q, hq'⟩ := Option.isSome_iff_exists.mp hq
      obtain ⟨hsum1, hst1, hpres1⟩ := set_vote_step s qid u0 v q s1 hq' hrun
      rw [ih s1 qid s' hpres1 h, hsum1,
        ← vote_sum_telescope u0 v rest (storedVote s qid) (storedVote s1 qid) hst1]
      ring

/-- Claim C1: `set_vote` keeps the vote sum correct.  Each mutating cast
(new value different from the stored prior) changes `votesum` by exactly
`newvote - prior`; and for any finite sequence of casts on a quote that
starts with `votesum = 0` and no vote records, the final `votesum` is the
sum over the users of the sequence of each user's latest cast value (a
user absent from the sequence has no record and counts 0). -/
theorem set_vote_votesum_correct :
    (∀ s qid u v q s', lookupA s.quotes qid = some q →
      storedVote s qid u ≠ v → set_vote s qid (some u) v = some s' →
      votesumOf s' qid = votesumOf s qid + (v - storedVote s qid u)) ∧
    (∀ s qid q seq s', lookupA s.quotes qid = some q → q.votesum = 0 →
      (∀ p ∈ s.votes, p.1.1 ≠ qid) →
      applyVotes s qid seq = some s' →
      votesumOf s' qid = ∑ u in usersOf seq, latestVote seq u) := by
  constructor
  · intro s qid u v q s' hq _ hrun
    exact (set_vote_step s qid u v q s' hq hrun).1
  · intro s qid q seq s' hq hzero hkeys happ
    have hst0 : ∀ u : User, storedVote s qid u = 0 := by
      intro u
      unfold storedVote lookupA
      rw [List.find?_eq_none.mpr]
      · rfl
      · intro p hp
        simp only [decide_eq_true_eq]
        intro e
        exact hkeys p hp (by rw [e])
    have h0 : votesumOf s qid = 0 := by
      unfold votesumOf
      rw [hq]
      simpa using hzero
    rw [applyVotes_votesum seq s qid s' (by rw [hq]; rfl) happ, h0]
    simp [hst0]

/-! ## Helper lemmas: the lexicographic comparison is a linear order -/

theorem charListLe_refl : ∀ l : List Char, charListLe l l = true := by
  intro l
  induction l with
  | nil => rfl
  | cons c cs ih =>
    unfold charListLe
    rw [if_neg (Nat.lt_irrefl _), if_neg (Nat.lt_irrefl _)]
    exact ih

theorem charListLe_total : ∀ l m : List Char,
    charListLe l m = true ∨ charListLe m l = true := by
  intro l
  induction l with
  | nil => intro m; left; rfl
  | cons c cs ih =>
    intro m
    cases m with
    | nil => right; rfl
    | cons d ds =>
      rcases Nat.lt_trichotomy c.toNat d.toNat with h | h | h
      · left
        unfold charListLe
        rw [if_pos h]
      · have h1 : ¬c.toNat < d.toNat := by omega
        have h2 : ¬d.toNat < c.toNat := by omega
        rcases ih ds with hl | hr
        · left
          unfold charListLe
          rw [if_neg h1, if_neg h2]
          exact hl
        · right
          unfold charListLe
          rw [if_neg h2, if_neg h1]
          exact hr
      · right
        unfold charListLe
        rw [if_pos h]

theorem charListLe_trans : ∀ l m n : List Char,
    charListLe l m = true → charListLe m n = true → charListLe l n = true := by
  intro l
  induction l with
  | nil => intro m n _ _; rfl
  | cons c cs ih =>
    intro m n h1 h2
    cases m with
    | nil => exact absurd h1 (by unfold charListLe; simp)
    | cons d ds =>
      cases n with
      | nil => exact absurd h2 (by unfold charListLe; simp)
      | cons e es =>
        unfold charListLe at h1 h2 ⊢
        by_cases hcd : c.toNat < d.toNat
        · by_cases hde : d.toNat < e.toNat
          · rw [if_pos (by omega)]
          · rw [if_neg hde] at h2
            by_cases hed : e.toNat < d.toNat
            · rw [if_pos hed] at h2
              cases h2
            · rw [if_pos (by omega)]
        · rw [if_neg hcd] at h1
          by_cases hdc : d.toNat < c.toNat
          · rw [if_pos hdc] at h1
            cases h1
          · rw [if_neg hdc] at h1
            by_cases hde : d.toNat < e.toNat
            · rw [if_pos (by omega)]
            · rw [if_neg hde] at h2
              by_cases hed : e.toNat < d.toNat
              · rw [if_pos hed] at h2
                cases h2
              · rw [if_neg hed] at h2
                rw [if_neg (by omega), if_neg (by omega)]
                exact ih ds es h1 h2

theorem charListLe_of_lt : ∀ l m : List Char,
    charListLt l m = true → charListLe l m = true := by
  intro l
  induction l with
  | nil => intro m _; rfl
  | cons c cs ih =>
    intro m h
    cases m with
    | nil => exact absurd h (by unfold charListLt; simp)
    | cons d ds =>
      unfold charListLt at h
      unfold charListLe
      by_cases hcd : c.toNat < d.toNat
      · rw [if_pos hcd]
      · rw [if_neg hcd] at h ⊢
        by_cases hdc : d.toNat < c.toNat
        · rw [if_pos hdc] at h
          cases h
        · rw [if_neg hdc] at h ⊢
          exact ih ds h

theorem charListLe_false_of_lt : ∀ l m : List Char,
    charListLt l m = true → charListLe m l = false := by
  intro l
  induction l with
  | nil =>
    intro m h
    cases m with
    | nil => exact absurd h (by unfold charListLt; simp)
    | cons d ds => rfl
  | cons c cs ih =>
    intro m h
    cases m with
    | nil => exact absurd h (by unfold charListLt; simp)
    | cons d ds =>
      unfold charListLt at h
      unfold charListLe
      by_cases hcd : c.toNat < d.toNat
      · rw [if_neg (by omega), if_pos hcd]
      · rw [if_neg hcd] at h
        by_cases hdc : d.toNat < c.toNat
        · rw [if_pos hdc] at h
          cases h
        · rw [if_neg hdc] at h
          rw [if_neg hdc, if_neg hcd]
          exact ih ds h

theorem charListLt_of_le_of_ne : ∀ l m : List Char,
    charListLe l m = true → l ≠ m → charListLt l m = true := by
  intro l
  induction l with
  | nil =>
    intro m _ hne
    cases m with
    | nil => exact absurd rfl hne
    | cons d ds => rfl
  | cons c cs ih =>
    intro m h hne
    cases m with
    | nil => exact absurd h (by unfold charListLe; simp)
    | cons d ds =>
      unfold charListLe at h
      unfold charListLt
      by_cases hcd : c.toNat < d.toNat
      · rw [if_pos hcd]
      · rw [if_neg hcd] at h ⊢
        by_cases hdc : d.toNat < c.toNat
        · rw [if_pos hdc] at h
          cases h
        · rw [if_neg hdc] at h ⊢
          have hn : c.toNat = d.toNat := by omega
          have hc : c = d := Char.ext (UInt32.ext_iff.mpr hn)
          subst hc
          exact ih ds h (fun e => hne (by rw [e]))

theorem charListLt_asymm : ∀ l m : List Char,
    charListLt l m = true → charListLt m l = true → False := by
  intro l
  induction l with
  | nil =>
    intro m h1 h2
    cases m with
    | nil => exact absurd h1 (by unfold charListLt; simp)
    | cons d ds => exact absurd h2 (by unfold charListLt; simp)
  | cons c cs ih =>
    intro m h1 h2
    cases m with
    | nil => exact absurd h1 (by unfold charListLt; simp)
    | cons d ds =>
      unfold charListLt at h1 h2
      by_cases hcd : c.toNat < d.toNat
      · rw [if_neg (by omega : ¬d.toNat < c.toNat), if_pos hcd] at h2
        cases h2
      · rw [if_neg hcd] at h1
        by_cases hdc : d.toNat < c.toNat
        · rw [if_pos hdc] at h1
          cases h1
        · rw [if_neg hdc] at h1
          rw [if_neg hdc, if_neg hcd] at h2
          exact ih ds h1 h2

instance : IsTotal (Nat × Quote) newestRel :=
  ⟨fun a b => charListLe_total _ _⟩

instance : IsTrans (Nat × Quote) newestRel :=
  ⟨fun _ _ _ h1 h2 => charListLe_trans _ _ _ h2 h1⟩

instance : IsAntisymm (Nat × Quote) newestStrict :=
  ⟨fun _ _ h1 h2 => (charListLt_asymm _ _ h1 h2).elim⟩

theorem str_data_ne (s t : String) (h : s ≠ t) : s.data ≠ t.data := by
  intro e
  apply h
  cases s
  cases t
  cases e
  rfl

/-! ## Helper lemmas: the recency query and its pagination -/

theorem sortNewest_strict (l : List (Nat × Quote))
    (hd : (l.map (fun p => p.2.creation_order)).Nodup) :
    (sortNewest l).Pairwise newestStrict := by
  have hs : (sortNewest l).Pairwise newestRel :=
    List.sorted_insertionSort newestRel l
  have hperm : List.Perm (sortNewest l) l := List.perm_insertionSort newestRel l
  have hd' : ((sortNewest l).map (fun p => p.2.creation_order)).Nodup :=
    ((hperm.map (fun p => p.2.creation_order)).nodup_iff).mpr hd
  have hne : (sortNewest l).Pairwise
      (fun a b => a.2.creation_order ≠ b.2.creation_order) :=
    List.pairwise_map.mp hd'
  refine (hs.and hne).imp ?_
  rintro a b ⟨hle, hab⟩
  exact charListLt_of_le_of_ne _ _ hle
    (str_data_ne _ _ (fun e => hab e.symm))

theorem sortNewest_filter (l : List (Nat × Quote))
    (hd : (l.map (fun p => p.2.creation_order)).Nodup)
    (pred : (Nat × Quote) → Bool) :
    sortNewest (l.filter pred) = (sortNewest l).filter pred := by
  refine List.eq_of_perm_of_sorted (r := newestStrict) ?_ ?_ ?_
  · exact (List.perm_insertionSort newestRel (l.filter pred)).trans
      (((List.perm_insertionSort newestRel l).filter pred).symm)
  · refine sortNewest_strict (l.filter pred) ?_
    exact hd.sublist ((l.filter_sublist).map (fun p => p.2.creation_order))
  · exact (sortNewest_strict l hd).filter pred

theorem filter_le_drop (M : List (Nat × Quote)) (hM : M.Pairwise newestStrict) :
    ∀ (k : Nat) (e : Nat × Quote), M[k]? = some e →
      M.filter (fun p => strLeB p.2.creation_order e.2.creation_order) = M.drop k := by
  induction M with
  | nil => intro k e h; simp at h
  | cons b M' ih =>
    intro k e h
    have hhead : ∀ x ∈ M', newestStrict b x := (List.pairwise_cons.mp hM).1
    cases k with
    | zero =>
      simp only [List.getElem?_cons_zero, Option.some.injEq] at h
      subst h
      rw [List.filter_cons,
        if_pos (show strLeB _ _ = true from charListLe_refl _), List.drop_zero]
      congr 1
      rw [List.filter_eq_self]
      intro x hx
      exact charListLe_of_lt _ _ (hhead x hx)
    | succ k =>
      simp only [List.getElem?_cons_succ] at h
      have he : e ∈ M' := by
        obtain ⟨hlt, hq⟩ := List.getElem?_eq_some.mp h
        exact hq ▸ List.getElem_mem hlt
      rw [List.filter_cons,
        if_neg (by simp [strLeB, charListLe_false_of_lt _ _ (hhead e he)]),
        List.drop_succ_cons]
      exact ih (List.pairwise_cons.mp hM).2 k e h

theorem gqn_short (s : State) (o : Option String)
    (h : (newestCand s o).length ≤ PAGE_SIZE) :
    get_quotes_newest s o = (newestCand s o, none) := by
  simp only [get_quotes_newest]
  rw [List.take_all_of_le (by omega), if_neg (by omega)]

theorem gqn_long (s : State) (o : Option String) (e : Nat × Quote)
    (h : (newestCand s o)[PAGE_SIZE]? = some e) :
    get_quotes_newest s o =
      ((newestCand s o).take PAGE_SIZE, some e.2.creation_order) := by
  have hlen : PAGE_SIZE < (newestCand s o).length := by
    by_contra hc
    rw [List.getElem?_eq_none (by omega)] at h
    cases h
  have htake : ((newestCand s o).take (PAGE_SIZE + 1)).length = PAGE_SIZE + 1 := by
    rw [List.length_take]
    omega
  simp only [get_quotes_newest]
  rw [if_pos (by rw [htake]; omega)]
  rw [List.take_take, Nat.min_eq_left (by omega)]
  rw [List.getLast?_eq_getElem?, htake]
  simp only [Nat.add_sub_cancel]
  rw [List.getElem?_take, if_pos (by omega), h]
  rfl

theorem pagesNewest_cover (s : State)
    (hd : (s.quotes.map (fun p => p.2.creation_order)).Nodup) :
    ∀ (fuel k : Nat), (sortNewest s.quotes).length - k < fuel →
      ∀ o : Option String, newestCand s o = (sortNewest s.quotes).drop k →
      ∃ pages, pagesNewest s o fuel = some pages ∧
        pages.flatten = (sortNewest s.quotes).drop k ∧ pages ≠ [] ∧
        ∀ p ∈ pages.dropLast, p.length = PAGE_SIZE := by
  have hstrict : (sortNewest s.quotes).Pairwise newestStrict :=
    sortNewest_strict s.quotes hd
  intro fuel
  induction fuel with
  | zero => intro k h _ _; omega
  | succ fuel ih =>
    intro k hfuel o hcand
    have hps : PAGE_SIZE = 20 := rfl
    by_cases hshort : (newestCand s o).length ≤ PAGE_SIZE
    · refine ⟨[newestCand s o], ?_, by simp [hcand], by simp, by simp⟩
      unfold pagesNewest
      rw [gqn_short s o hshort]
    · push_neg at hshort
      have hlenk : PAGE_SIZE < ((sortNewest s.quotes).drop k).length := by
        rw [← hcand]; exact hshort
      have hklen : k + PAGE_SIZE < (sortNewest s.quotes).length := by
        rw [List.length_drop] at hlenk
        omega
      obtain ⟨e, he⟩ : ∃ e, (sortNewest s.quotes)[k + PAGE_SIZE]? = some e :=
        ⟨_, List.getElem?_eq_getElem hklen⟩
      have hgete : (newestCand s o)[PAGE_SIZE]? = some e := by
        rw [hcand, List.getElem?_drop]
        exact he
      have hnext : newestCand s (some e.2.creation_order) =
          (sortNewest s.quotes).drop (k + PAGE_SIZE) := by
        show sortNewest (s.quotes.filter _) = _
        rw [sortNewest_filter s.quotes hd, filter_le_drop _ hstrict _ e he]
      have hlenk' : PAGE_SIZE < (sortNewest s.quotes).length - k := by
        rw [List.length_drop] at hlenk
        exact hlenk
      obtain ⟨pages', h1, h2, h3, h4⟩ :=
        ih (k + PAGE_SIZE) (by omega) (some e.2.creation_order) hnext
      refine ⟨((sortNewest s.quotes).drop k).take PAGE_SIZE :: pages', ?_, ?_, by simp, ?_⟩
      · unfold pagesNewest
        rw [gqn_long s o e hgete, hcand]
        dsimp only
        rw [h1]
        rfl
      · rw [List.flatten_cons, h2, ← List.drop_drop, List.take_append_drop]
      · intro p hp
        rw [List.dropLast_cons_of_ne_nil h3] at hp
        rcases List.mem_cons.mp hp with hp | hp
        · subst hp
          rw [List.length_take, List.length_drop]
          omega
        · exact h4 p hp

/-- Claim C6: starting the recency view with no cursor and repeatedly
following the returned next-page cursor until it is `None` terminates and
yields every live quote exactly once (the concatenation of the pages is a
permutation of the store), in strictly descending `creation_order`, with
every page except possibly the last containing exactly `PAGE_SIZE` quotes
— provided the stored `creation_order` values are pairwise distinct. -/
theorem get_quotes_newest_pagination (s : State)
    (hdistinct : (s.quotes.map (fun p => p.2.creation_order)).Nodup) :
    ∃ pages, pagesNewest s none (s.quotes.length + 1) = some pages ∧
      pages.flatten.Perm s.quotes ∧
      (pages.flatten.map (fun p => p.2.creation_order)).Pairwise
        (fun a b => strLtB b a = true) ∧
      pages ≠ [] ∧
      (∀ p ∈ pages.dropLast, p.length = PAGE_SIZE) := by
  have hlen : (sortNewest s.quotes).length = s.quotes.length :=
    (List.perm_insertionSort newestRel s.quotes).length_eq
  obtain ⟨pages, h1, h2, h3, h4⟩ :=
    pagesNewest_cover s hdistinct (s.quotes.length + 1) 0 (by omega) none
      (by rw [List.drop_zero]; rfl)
  rw [List.drop_zero] at h2
  refine ⟨pages, h1, ?_, ?_, h3, h4⟩
  · rw [h2]
    exact List.perm_insertionSort newestRel s.quotes
  · rw [h2]
    exact List.pairwise_map.mpr (sortNewest_strict s.quotes hdistinct)

/-- Witness for C6 on a 25-quote store: two pages of 20 and 5 quotes. -/
theorem get_quotes_newest_pagination_witness :
    ∃ pages, pagesNewest sPages none (sPages.quotes.length + 1) = some pages ∧
      pages.flatten.Perm sPages.quotes ∧
      (pages.flatten.map (fun p => p.2.creation_order)).Pairwise
        (fun a b => strLtB b a = true) ∧
      pages ≠ [] ∧
      (∀ p ∈ pages.dropLast, p.length = PAGE_SIZE) :=
  get_quotes_newest_pagination sPages (by decide)

/-- Witness for C1: on the test store, a mutating cast changes the sum by
the delta, and a three-cast sequence by two users sums each user's latest
value. -/
theorem set_vote_votesum_correct_witness :
    votesumOf sVoted 1 = votesumOf sTest 1 + (1 - storedVote sTest 1 uTest) ∧
    votesumOf ((applyVotes sTest 1 [(uTest, 1), (uTest2, 1), (uTest, -1)]).getD {}) 1 =
      ∑ u in usersOf [(uTest, 1), (uTest2, 1), (uTest, -1)],
        latestVote [(uTest, 1), (uTest2, 1), (uTest, -1)] u :=
  ⟨set_vote_votesum_correct.1 sTest 1 uTest 1 qTest sVoted (by decide) (by decide)
      (by decide),
   set_vote_votesum_correct.2 sTest 1 qTest [(uTest, 1), (uTest2, 1), (uTest, -1)]
      ((applyVotes sTest 1 [(uTest, 1), (uTest2, 1), (uTest, -1)]).getD {}) (by decide)
      (by decide) (by decide) (by decide)⟩

end Overheard
